import Mathlib

/- Formal model of the recipe-app-api repository: a CRUD web API for recipes,
   tags and ingredients scoped to an authenticated user. The management command
   wait_for_db.py is embedded from its source; the view, serializer and model
   layers are present in the repository only through their tests, so they are
   modelled from the specification document, as marked on each definition. -/

/-- Modelled from the spec: the recipe/tag/ingredient view, serializer and model
modules are absent from the source tree (only their tests are present). Tag and
Ingredient rows have the same shape, a name owned by exactly one user (spec
section 3); Entity is that common row shape, and the tag table and the
ingredient table of the database both hold lists of Entity. -/
structure Entity where
  id : Nat
  user : Nat
  name : String
deriving DecidableEq, Repr

/-- Modelled from the spec: a Recipe holds a title, a time estimate, a price
(a fixed-point decimal, modelled as an integer number of hundredths), a
description, an optional link, and is owned by exactly one user; it holds
many-to-many relations to tags and ingredients, stored here as lists of row
ids (spec section 3). The optional image reference is not modelled; no claim
concerns it. -/
structure Recipe where
  id : Nat
  user : Nat
  title : String
  time_minutes : Nat
  price : Int
  description : String
  link : String
  tags : List Nat
  ingredients : List Nat
deriving DecidableEq, Repr

/-- Modelled from the spec: the database state, one table per entity kind plus
the next auto-increment primary key of each table (identifiers increase with
creation time, spec section 4.1). Users appear only as their numeric ids. -/
structure DB where
  tags : List Entity
  ingredients : List Entity
  recipes : List Recipe
  nextTagId : Nat
  nextIngredientId : Nat
  nextRecipeId : Nat
deriving DecidableEq, Repr

/-- Descending-by-name order used by the tag and ingredient listings. -/
def nameDesc (a b : Entity) : Prop := b.name ≤ a.name

instance : DecidableRel nameDesc :=
  fun a b => inferInstanceAs (Decidable (b.name ≤ a.name))

instance : IsTotal Entity nameDesc :=
  ⟨fun a b => le_total b.name a.name⟩

instance : IsTrans Entity nameDesc :=
  ⟨fun _ _ _ hab hbc => le_trans hbc hab⟩

/-- Descending-by-identifier order used by the recipe listing. -/
def idDesc (a b : Recipe) : Prop := b.id ≤ a.id

instance : DecidableRel idDesc :=
  fun a b => inferInstanceAs (Decidable (b.id ≤ a.id))

instance : IsTotal Recipe idDesc :=
  ⟨fun a b => le_total b.id a.id⟩

instance : IsTrans Recipe idDesc :=
  ⟨fun _ _ _ hab hbc => le_trans hbc hab⟩

/-- Modelled from the spec (section 4.1): the shared queryset of the tag and
ingredient listing endpoints, whose view module is absent from the source tree.
With the assigned_only flag the rows are joined against the recipes referencing
them, one row per entity and recipe pair, which duplicates an entity attached
to several recipes; the rows are then scoped to the requesting user, ordered
descending by name, and deduplicated before being returned. The argument rel
selects which relation of a recipe the rows live on. -/
def entity_list (rows : List Entity) (recipes : List Recipe)
    (rel : Recipe → List Nat) (caller : Nat) (assigned_only : Bool) :
    List Entity :=
  let base :=
    if assigned_only then
      rows.flatMap (fun e =>
        (recipes.filter (fun rc => decide (e.id ∈ rel rc))).map (fun _ => e))
    else rows
  (List.insertionSort nameDesc (base.filter (fun e => e.user == caller))).dedup

/-- Modelled from the spec (section 4.1): the tag listing endpoint. -/
def tag_list (db : DB) (caller : Nat) (assigned_only : Bool) : List Entity :=
  entity_list db.tags db.recipes (fun r => r.tags) caller assigned_only

/-- Modelled from the spec (section 4.1): the ingredient listing endpoint. -/
def ingredient_list (db : DB) (caller : Nat) (assigned_only : Bool) :
    List Entity :=
  entity_list db.ingredients db.recipes (fun r => r.ingredients) caller
    assigned_only

/-- Modelled from the spec (section 4.1): the recipe listing queryset, whose
view module is absent from the source tree. Each supplied id list (the
comma-separated query value already parsed to integers; malformed tokens are an
open question of the spec, section 9) restricts the result to recipes
associated with at least one id from that list; an omitted filter imposes no
constraint. The result is scoped to the requesting user, ordered descending by
identifier and deduplicated. -/
def recipe_list (db : DB) (caller : Nat)
    (tagIds ingredientIds : Option (List Nat)) : List Recipe :=
  let q := db.recipes
  let q := match tagIds with
    | some ids => q.filter (fun (r : Recipe) => decide (∃ t ∈ r.tags, t ∈ ids))
    | none => q
  let q := match ingredientIds with
    | some ids =>
      q.filter (fun (r : Recipe) => decide (∃ i ∈ r.ingredients, i ∈ ids))
    | none => q
  (List.insertionSort idDesc (q.filter (fun r => r.user == caller))).dedup

/-- Modelled from the spec (section 4.2 and glossary): get-or-create, absent
from the source tree together with the serializer module that calls it. Look an
entity up by name among the rows of the requesting user (case sensitive);
create it with the next free id when absent; return the new rows, the next
free id, and the id of the found or created row. -/
def get_or_create (rows : List Entity) (next caller : Nat) (n : String) :
    List Entity × Nat × Nat :=
  match rows.find? (fun e => e.user == caller && e.name == n) with
  | some e => (rows, next, e.id)
  | none => (rows ++ [⟨next, caller, n⟩], next + 1, next)

/-- Modelled from the spec (section 4.2): resolve a list of name-only records
left to right by get-or-create, returning the final rows, the next free id,
and the resolved ids in order. -/
def get_or_create_list (rows : List Entity) (next caller : Nat) :
    List String → List Entity × Nat × List Nat
  | [] => (rows, next, [])
  | n :: ns =>
    let g := get_or_create rows next caller n
    let rest := get_or_create_list g.1 g.2.1 caller ns
    (rest.1, rest.2.1, g.2.2 :: rest.2.2)

/-- Names of the rows owned by a user. -/
def userNames (rows : List Entity) (caller : Nat) : List String :=
  (rows.filter (fun e => e.user == caller)).map (fun e => e.name)

/-- Modelled from the spec (sections 4.2 and 6): a partial-update payload for a
recipe; a field holding none was omitted from the request body. The user field
may appear in a request body but is not a writable serializer field, so
applying the payload never reads it (the repository test
test_update_user_returns_error checks exactly this). -/
structure RecipePatchPayload where
  title : Option String := none
  time_minutes : Option Nat := none
  price : Option Int := none
  description : Option String := none
  link : Option String := none
  tags : Option (List String) := none
  ingredients : Option (List String) := none
  user : Option Nat := none
deriving DecidableEq, Repr

/-- Modelled from the spec (sections 3 and 6, owner scoping): look a recipe up
by id among the recipes of the requesting user. -/
def findRecipe (db : DB) (caller rid : Nat) : Option Recipe :=
  db.recipes.find? (fun r => r.user == caller && r.id == rid)

/-- Modelled from the spec (section 4.2): the ids resolved by get-or-create for
a supplied list of tag names. -/
def resolveTagIds (db : DB) (caller : Nat) (names : List String) : List Nat :=
  (get_or_create_list db.tags db.nextTagId caller names).2.2

/-- Modelled from the spec (section 4.2): the ids resolved by get-or-create for
a supplied list of ingredient names. -/
def resolveIngredientIds (db : DB) (caller : Nat) (names : List String) :
    List Nat :=
  (get_or_create_list db.ingredients db.nextIngredientId caller names).2.2

/-- Modelled from the spec (section 4.2): apply a partial-update payload to a
recipe owned by the caller. A supplied tags or ingredients list fully replaces
the associations of that relation with the resolved set; an omitted field
leaves the corresponding value untouched. Returns the new database and the
updated recipe. -/
def applyPatch (db : DB) (caller : Nat) (r : Recipe) (p : RecipePatchPayload) :
    DB × Recipe :=
  let t := match p.tags with
    | none => (db.tags, db.nextTagId, r.tags)
    | some names => get_or_create_list db.tags db.nextTagId caller names
  let i := match p.ingredients with
    | none => (db.ingredients, db.nextIngredientId, r.ingredients)
    | some names =>
      get_or_create_list db.ingredients db.nextIngredientId caller names
  let r2 : Recipe := { r with
    title := p.title.getD r.title,
    time_minutes := p.time_minutes.getD r.time_minutes,
    price := p.price.getD r.price,
    description := p.description.getD r.description,
    link := p.link.getD r.link,
    tags := t.2.2,
    ingredients := i.2.2 }
  ({ db with
      tags := t.1,
      nextTagId := t.2.1,
      ingredients := i.1,
      nextIngredientId := i.2.1,
      recipes := db.recipes.map (fun x => if x.id == r.id then r2 else x) },
    r2)

/-- Modelled from the spec (sections 4.2, 6 and 7): the PATCH endpoint of a
recipe. A recipe not owned by the caller is not found (status 404) and nothing
changes; otherwise the payload is applied and the updated recipe is returned
with status 200. -/
def recipe_patch_update (db : DB) (caller rid : Nat) (p : RecipePatchPayload) :
    Nat × Option Recipe × DB :=
  match findRecipe db caller rid with
  | none => (404, none, db)
  | some r =>
    let res := applyPatch db caller r p
    (200, some res.2, res.1)

/-- Modelled from the spec (sections 6 and 7): retrieve a recipe by id; status
404 when the caller does not own it. -/
def recipe_detail (db : DB) (caller rid : Nat) : Nat × Option Recipe :=
  match findRecipe db caller rid with
  | none => (404, none)
  | some r => (200, some r)

/-- Modelled from the spec (sections 6 and 7): delete a recipe by id; status
404 and no change when the caller does not own it. -/
def recipe_delete (db : DB) (caller rid : Nat) : Nat × DB :=
  match findRecipe db caller rid with
  | none => (404, db)
  | some _ =>
    (204, { db with recipes := db.recipes.filter (fun x => x.id != rid) })

/-- Modelled from the spec (sections 6 and 7): rename a tag or ingredient row
by id; status 404 and no change when the caller does not own it. -/
def entity_update (rows : List Entity) (caller eid : Nat) (newName : String) :
    Nat × List Entity :=
  match rows.find? (fun e => e.user == caller && e.id == eid) with
  | none => (404, rows)
  | some _ =>
    (200, rows.map (fun x => if x.id == eid then { x with name := newName }
      else x))

/-- Modelled from the spec (sections 6 and 7): delete a tag or ingredient row
by id; status 404 and no change when the caller does not own it. -/
def entity_delete (rows : List Entity) (caller eid : Nat) :
    Nat × List Entity :=
  match rows.find? (fun e => e.user == caller && e.id == eid) with
  | none => (404, rows)
  | some _ => (204, rows.filter (fun x => x.id != eid))

/-- Modelled from the spec (sections 4.2 and 8): a recipe-creation payload; tag
and ingredient sub-objects are name-only records. -/
structure RecipeCreatePayload where
  title : String
  time_minutes : Nat
  price : Int
  description : String := ""
  link : String := ""
  tags : List String := []
  ingredients : List String := []
deriving DecidableEq, Repr

/-- Modelled from the spec (sections 4.2 and 8): the recipe POST endpoint;
resolves the supplied names by get-or-create against the tables of the
requesting user and stores the new recipe owned by the caller, answering
status 201. -/
def recipe_create (db : DB) (caller : Nat) (p : RecipeCreatePayload) :
    Nat × DB :=
  let t := get_or_create_list db.tags db.nextTagId caller p.tags
  let i := get_or_create_list db.ingredients db.nextIngredientId caller
    p.ingredients
  let r : Recipe := ⟨db.nextRecipeId, caller, p.title, p.time_minutes,
    p.price, p.description, p.link, t.2.2, i.2.2⟩
  (201, { db with
    tags := t.1,
    nextTagId := t.2.1,
    ingredients := i.1,
    nextIngredientId := i.2.1,
    recipes := db.recipes ++ [r],
    nextRecipeId := db.nextRecipeId + 1 })

/-- Split a character list at its last at sign: the result is some (l, d) when
the input is l, an at sign, then d with no further at sign in d; none when the
input holds no at sign. -/
def splitLastAt : List Char → Option (List Char × List Char)
  | [] => none
  | c :: cs =>
    match splitLastAt cs with
    | some p => some (c :: p.1, p.2)
    | none => if c = '@' then some ([], cs) else none

/-- Modelled from the spec (section 3): the user manager module is absent from
the source tree; email normalization lowercases the domain part, the substring
after the last at sign, while the local part keeps its case. An email without
an at sign is returned unchanged. -/
def normalize_email (email : String) : String :=
  match splitLastAt email.data with
  | some p => String.mk (p.1 ++ '@' :: p.2.map Char.toLower)
  | none => email

/-- Modelled from the spec (section 3): a user account record. The password
hash is modelled as the password string itself; no claim concerns hashing. -/
structure User where
  id : Nat
  email : String
  password : String
deriving DecidableEq, Repr

/-- The user table and its next auto-increment primary key. -/
structure UserDB where
  users : List User
  nextUserId : Nat
deriving DecidableEq, Repr

/-- Modelled from the spec (sections 3 and 7): the create_user operation of the
user manager, absent from the source tree. An empty email is a value error and
no record is created; otherwise the user is stored with the normalized
email. -/
def create_user (db : UserDB) (email pw : String) :
    Except String (UserDB × User) :=
  if email = "" then Except.error "Users must have an email address"
  else
    let u : User := ⟨db.nextUserId, normalize_email email, pw⟩
    Except.ok ({ users := db.users ++ [u], nextUserId := db.nextUserId + 1 },
      u)

/-- Modelled from the spec (section 7): the account-creation endpoint surfaces
a value error as a 400-class response, leaving the database unchanged; success
stores the user and answers status 201. -/
def create_user_endpoint (db : UserDB) (email pw : String) : Nat × UserDB :=
  match create_user db email pw with
  | Except.error _ => (400, db)
  | Except.ok g => (201, g.1)

/-- Outcome of one invocation of self.check inside Command.handle of
wait_for_db.py: the check either completes, or raises one of the two error
classes the except clause catches (the psycopg2 OperationalError or the ORM
OperationalError). -/
inductive CheckResult where
  | ok
  | psycopg2Error
  | ormError
deriving DecidableEq, Repr

/-- Whether a check outcome is caught by the except clause of
Command.handle. -/
def CheckResult.isCaught : CheckResult → Bool
  | .ok => false
  | .psycopg2Error => true
  | .ormError => true

/-- Iterations run and one-second sleeps performed by the handle loop of
wait_for_db before it reported success. -/
structure HandleOutcome where
  iterations : Nat
  sleeps : Nat
deriving DecidableEq, Repr

/-- The while loop of Command.handle in wait_for_db.py, embedded with fuel:
checks n is the outcome of invocation number n (counting from zero) of
self.check; a caught error writes a message, sleeps one second and retries,
while success leaves the loop and the success message is written. The value
none means the loop was still running when the fuel ran out. -/
def handleFrom (checks : Nat → CheckResult) : Nat → Nat → Option HandleOutcome
  | 0, _ => none
  | fuel + 1, i =>
    match checks i with
    | .ok => some ⟨i + 1, i⟩
    | .psycopg2Error => handleFrom checks fuel (i + 1)
    | .ormError => handleFrom checks fuel (i + 1)

/-- Command.handle of wait_for_db.py, started at the first check. -/
def handle (checks : Nat → CheckResult) (fuel : Nat) : Option HandleOutcome :=
  handleFrom checks fuel 0

/-- Concrete tag row used to instantiate theorems that carry hypotheses. -/
def exTag : Entity := ⟨1, 1, "a"⟩

/-- Concrete ingredient row used to instantiate theorems. -/
def exIngredient : Entity := ⟨1, 1, "b"⟩

/-- Concrete recipe used to instantiate theorems. -/
def exRecipe : Recipe := ⟨5, 1, "T", 5, 525, "", "", [1], [1]⟩

/-- Concrete database owned by user 1. -/
def exDB : DB := ⟨[exTag], [exIngredient], [exRecipe], 2, 2, 6⟩

/-- Concrete tag row owned by user 2, for the cross-user claim. -/
def exTagB : Entity := ⟨1, 2, "a"⟩

/-- Concrete ingredient row owned by user 2, for the cross-user claim. -/
def exIngredientB : Entity := ⟨1, 2, "b"⟩

/-- Concrete recipe owned by user 2, for the cross-user claim. -/
def exRecipeB : Recipe := ⟨5, 2, "T", 5, 525, "", "", [], []⟩

/-- Concrete database owned by user 2, for the cross-user claim. -/
def exDBB : DB := ⟨[exTagB], [exIngredientB], [exRecipeB], 2, 2, 6⟩

/-- Concrete check sequence whose first invocation raises and whose second
succeeds. -/
def exChecks : Nat → CheckResult :=
  fun n => if n = 0 then CheckResult.psycopg2Error else CheckResult.ok

/-- Concrete empty user table. -/
def exUserDB : UserDB := ⟨[], 0⟩

theorem find_owned_eq_none {α : Type} (idf uf : α → Nat) (rows : List α)
    (x : α) (caller : Nat) (hx : x ∈ rows)
    (hnodup : (rows.map idf).Nodup) (hne : uf x ≠ caller) :
    rows.find? (fun y => uf y == caller && idf y == idf x) = none := by
  rw [List.find?_eq_none]
  intro y hy
  simp only [Bool.and_eq_true, beq_iff_eq, not_and]
  intro hyu hyid
  have hxy : y = x := List.inj_on_of_nodup_map hnodup hy hx hyid
  subst hxy
  exact hne hyu

theorem get_or_create_list_count (rows : List Entity) (next caller : Nat)
    (names : List String) (hnd : names.Nodup) :
    ((get_or_create_list rows next caller names).1.filter
        (fun e => e.user == caller)).length
      = (rows.filter (fun e => e.user == caller)).length
        + (names.filter
            (fun n => !decide (n ∈ userNames rows caller))).length := by
  induction names generalizing rows next with
  | nil => simp [get_or_create_list]
  | cons n ns ih =>
    obtain ⟨hn, hns⟩ := List.nodup_cons.mp hnd
    rcases hfind : rows.find? (fun e => e.user == caller && e.name == n)
      with _ | e
    · have hnotin : n ∉ userNames rows caller := by
        unfold userNames
        rw [List.mem_map]
        rintro ⟨e, hef, hen⟩
        obtain ⟨hemem, heu⟩ := List.mem_filter.mp hef
        exact List.find?_eq_none.mp hfind e hemem
          (by rw [Bool.and_eq_true]; exact ⟨heu, beq_iff_eq.mpr hen⟩)
      have husers : userNames (rows ++ [⟨next, caller, n⟩]) caller
          = userNames rows caller ++ [n] := by
        unfold userNames
        simp
      have hcongr : ns.filter
            (fun m => !decide
              (m ∈ userNames (rows ++ [⟨next, caller, n⟩]) caller))
          = ns.filter (fun m => !decide (m ∈ userNames rows caller)) := by
        apply List.filter_congr
        intro m hm
        have hmn : m ≠ n := fun h => hn (h ▸ hm)
        have hiff : (m ∈ userNames (rows ++ [⟨next, caller, n⟩]) caller)
            ↔ (m ∈ userNames rows caller) := by
          rw [husers]
          simp [List.mem_append, hmn]
        rw [decide_eq_decide.mpr hiff]
      have hstep : (get_or_create_list rows next caller (n :: ns)).1
          = (get_or_create_list (rows ++ [⟨next, caller, n⟩]) (next + 1)
              caller ns).1 := by
        simp [get_or_create_list, get_or_create, hfind]
      rw [hstep, ih _ _ hns, hcongr]
      have hfl : ((rows ++ [(⟨next, caller, n⟩ : Entity)]).filter
          (fun e => e.user == caller)).length
          = (rows.filter (fun e => e.user == caller)).length + 1 := by
        simp
      rw [hfl, List.filter_cons]
      have hq : (!decide (n ∈ userNames rows caller)) = true := by
        simp [hnotin]
      rw [hq]
      simp
      omega
    · obtain ⟨hemem, heuser, hename⟩ : e ∈ rows ∧ e.user = caller
          ∧ e.name = n := by
        refine ⟨List.mem_of_find?_eq_some hfind, ?_, ?_⟩
        · have := List.find?_some hfind
          rw [Bool.and_eq_true] at this
          exact beq_iff_eq.mp this.1
        · have := List.find?_some hfind
          rw [Bool.and_eq_true] at this
          exact beq_iff_eq.mp this.2
      have hmemnames : n ∈ userNames rows caller := by
        unfold userNames
        rw [List.mem_map]
        exact ⟨e, List.mem_filter.mpr ⟨hemem, beq_iff_eq.mpr heuser⟩, hename⟩
      have hstep : (get_or_create_list rows next caller (n :: ns)).1
          = (get_or_create_list rows next caller ns).1 := by
        simp [get_or_create_list, get_or_create, hfind]
      rw [hstep, ih _ _ hns, List.filter_cons]
      have hq : (!decide (n ∈ userNames rows caller)) = false := by
        simp [hmemnames]
      rw [hq]
      simp

theorem get_or_create_list_append_user (rows : List Entity)
    (next caller : Nat) (names : List String) :
    ∃ created : List Entity,
      (get_or_create_list rows next caller names).1 = rows ++ created
        ∧ ∀ e ∈ created, e.user = caller := by
  induction names generalizing rows next with
  | nil => exact ⟨[], by simp [get_or_create_list], by simp⟩
  | cons n ns ih =>
    rcases hfind : rows.find? (fun e => e.user == caller && e.name == n)
      with _ | e
    · obtain ⟨c, hc, hcu⟩ := ih (rows ++ [⟨next, caller, n⟩]) (next + 1)
      refine ⟨⟨next, caller, n⟩ :: c, ?_, ?_⟩
      · have hstep : (get_or_create_list rows next caller (n :: ns)).1
            = (get_or_create_list (rows ++ [⟨next, caller, n⟩]) (next + 1)
                caller ns).1 := by
          simp [get_or_create_list, get_or_create, hfind]
        rw [hstep, hc]
        simp
      · intro e he
        rcases List.mem_cons.mp he with h | h
        · subst h; rfl
        · exact hcu e h
    · obtain ⟨c, hc, hcu⟩ := ih rows next
      refine ⟨c, ?_, hcu⟩
      have hstep : (get_or_create_list rows next caller (n :: ns)).1
          = (get_or_create_list rows next caller ns).1 := by
        simp [get_or_create_list, get_or_create, hfind]
      rw [hstep, hc]

theorem splitLastAt_eq_none (cs : List Char) (h : '@' ∉ cs) :
    splitLastAt cs = none := by
  induction cs with
  | nil => rfl
  | cons c cs ih =>
    have hc : c ≠ '@' := fun hc => h (hc ▸ List.mem_cons_self c cs)
    have hcs : '@' ∉ cs := fun hm => h (List.mem_cons_of_mem c hm)
    simp [splitLastAt, ih hcs, hc]

theorem splitLastAt_append (l d : List Char) (hd : '@' ∉ d) :
    splitLastAt (l ++ '@' :: d) = some (l, d) := by
  induction l with
  | nil => simp [splitLastAt, splitLastAt_eq_none d hd]
  | cons c l ih => simp [splitLastAt, ih]

theorem handleFrom_success (checks : Nat → CheckResult) (k : Nat)
    (hk : checks k = CheckResult.ok)
    (hbefore : ∀ j, j < k → checks j ≠ CheckResult.ok) :
    ∀ fuel i, i ≤ k → k - i < fuel →
      handleFrom checks fuel i = some ⟨k + 1, k⟩ := by
  intro fuel
  induction fuel with
  | zero =>
    intro i hik hlt
    exact absurd hlt (Nat.not_lt_zero _)
  | succ fuel ih =>
    intro i hik hlt
    by_cases hik2 : i = k
    · subst hik2
      simp [handleFrom, hk]
    · have hi : i < k := lt_of_le_of_ne hik hik2
      rcases hc : checks i with _ | _ | _
      · exact absurd hc (hbefore i hi)
      · simp only [handleFrom, hc]
        exact ih (i + 1) (by omega) (by omega)
      · simp only [handleFrom, hc]
        exact ih (i + 1) (by omega) (by omega)

theorem handleFrom_diverges (checks : Nat → CheckResult)
    (hall : ∀ j, checks j ≠ CheckResult.ok) :
    ∀ fuel i, handleFrom checks fuel i = none := by
  intro fuel
  induction fuel with
  | zero => intro i; rfl
  | succ fuel ih =>
    intro i
    rcases hc : checks i with _ | _ | _
    · exact absurd hc (hall i)
    · simp only [handleFrom, hc]; exact ih (i + 1)
    · simp only [handleFrom, hc]; exact ih (i + 1)

theorem entity_list_assigned_count (rows : List Entity)
    (recipes : List Recipe) (rel : Recipe → List Nat) (caller : Nat)
    (e : Entity) :
    (entity_list rows recipes rel caller true).count e
      = if e ∈ rows ∧ e.user = caller ∧ ∃ rc ∈ recipes, e.id ∈ rel rc then 1
        else 0 := by
  have hmem : e ∈ List.insertionSort nameDesc
      ((rows.flatMap (fun a =>
        (recipes.filter (fun rc => decide (a.id ∈ rel rc))).map
          (fun _ => a))).filter (fun a => a.user == caller))
      ↔ (e ∈ rows ∧ e.user = caller ∧ ∃ rc ∈ recipes, e.id ∈ rel rc) := by
    rw [(List.perm_insertionSort _ _).mem_iff]
    simp only [List.mem_filter, List.mem_flatMap, List.mem_map,
      decide_eq_true_eq, beq_iff_eq]
    constructor
    · rintro ⟨⟨a, ha, rc, hrc, rfl⟩, hu⟩
      exact ⟨ha, hu, rc, hrc.1, hrc.2⟩
    · rintro ⟨ha, hu, rc, hrcm, hrcid⟩
      exact ⟨⟨e, ha, rc, ⟨hrcm, hrcid⟩, rfl⟩, hu⟩
  have hunfold : entity_list rows recipes rel caller true
      = (List.insertionSort nameDesc
          ((rows.flatMap (fun a =>
            (recipes.filter (fun rc => decide (a.id ∈ rel rc))).map
              (fun _ => a))).filter (fun a => a.user == caller))).dedup := by
    simp [entity_list]
  rw [hunfold, List.count_dedup, if_congr hmem rfl rfl]

/-- C1: for every recipe-list request carrying a tags id list and/or an
ingredients id list, the returned set is exactly the recipes of the caller
associated with at least one tag from the supplied tags set and at least one
ingredient from the supplied ingredients set; an omitted filter imposes no
constraint, and every recipe matching neither supplied set is excluded. -/
theorem recipe_filter_membership (db : DB) (caller : Nat)
    (tagIds ingredientIds : Option (List Nat)) (r : Recipe) :
    r ∈ recipe_list db caller tagIds ingredientIds
      ↔ r ∈ db.recipes ∧ r.user = caller
        ∧ (∀ ids, tagIds = some ids → ∃ t ∈ r.tags, t ∈ ids)
        ∧ (∀ ids, ingredientIds = some ids →
            ∃ i ∈ r.ingredients, i ∈ ids) := by
  cases tagIds <;> cases ingredientIds
  all_goals
    simp [recipe_list, List.mem_dedup,
      (List.perm_insertionSort _ _).mem_iff, List.mem_filter, forall_eq']
  all_goals tauto

/-- C2: for every tag or ingredient list request with assigned_only set, the
result contains no entity attached to zero recipes, and every entity of the
caller attached to at least one recipe appears exactly once, even when it is
attached to multiple recipes: the duplicate rows produced by the join are
deduplicated before return. -/
theorem assigned_only_unique (db : DB) (caller : Nat) (t i : Entity) :
    (tag_list db caller true).count t
      = (if t ∈ db.tags ∧ t.user = caller
            ∧ ∃ rc ∈ db.recipes, t.id ∈ rc.tags then 1 else 0)
    ∧ (ingredient_list db caller true).count i
      = (if i ∈ db.ingredients ∧ i.user = caller
            ∧ ∃ rc ∈ db.recipes, i.id ∈ rc.ingredients then 1 else 0) :=
  ⟨entity_list_assigned_count db.tags db.recipes (fun r => r.tags) caller t,
   entity_list_assigned_count db.ingredients db.recipes
     (fun r => r.ingredients) caller i⟩

/-- C6: the default order of the tag and ingredient listings is descending by
name, and the default order of the recipe listing is descending by identifier,
most recently created first. -/
theorem default_listing_order (db : DB) (caller : Nat) :
    List.Pairwise nameDesc (tag_list db caller false)
    ∧ List.Pairwise nameDesc (ingredient_list db caller false)
    ∧ List.Pairwise idDesc (recipe_list db caller none none) := by
  refine ⟨?_, ?_, ?_⟩
  · exact List.Pairwise.sublist (List.dedup_sublist _)
      (List.sorted_insertionSort nameDesc _)
  · exact List.Pairwise.sublist (List.dedup_sublist _)
      (List.sorted_insertionSort nameDesc _)
  · exact List.Pairwise.sublist (List.dedup_sublist _)
      (List.sorted_insertionSort idDesc _)

/-- C3: for every recipe partial update, a payload supplying a tags or an
ingredients list fully replaces the existing associations of that relation by
the set resolved from the supplied names, an empty list leaving zero
associations, while a payload omitting the field leaves the associations of
that relation unchanged. -/
theorem patch_replaces_associations (db : DB) (caller rid : Nat)
    (p : RecipePatchPayload) (r : Recipe)
    (hfind : findRecipe db caller rid = some r) :
    ∃ r2 db2, recipe_patch_update db caller rid p = (200, some r2, db2)
      ∧ r2 ∈ db2.recipes
      ∧ (p.tags = none → r2.tags = r.tags)
      ∧ (∀ names, p.tags = some names →
          r2.tags = resolveTagIds db caller names)
      ∧ (p.tags = some [] → r2.tags = [])
      ∧ (p.ingredients = none → r2.ingredients = r.ingredients)
      ∧ (∀ names, p.ingredients = some names →
          r2.ingredients = resolveIngredientIds db caller names)
      ∧ (p.ingredients = some [] → r2.ingredients = []) := by
  refine ⟨(applyPatch db caller r p).2, (applyPatch db caller r p).1,
    ?_, ?_, ?_, ?_, ?_, ?_, ?_, ?_⟩
  · simp [recipe_patch_update, hfind]
  · have hr : r ∈ db.recipes := List.mem_of_find?_eq_some hfind
    have hrec : (applyPatch db caller r p).1.recipes
        = db.recipes.map
            (fun x => if x.id == r.id then (applyPatch db caller r p).2
              else x) := rfl
    rw [hrec]
    exact List.mem_map.mpr ⟨r, hr, by simp⟩
  · intro h
    simp [applyPatch, h]
  · intro names h
    simp [applyPatch, h, resolveTagIds]
  · intro h
    simp [applyPatch, h, resolveTagIds, get_or_create_list]
  · intro h
    simp [applyPatch, h]
  · intro names h
    simp [applyPatch, h, resolveIngredientIds]
  · intro h
    simp [applyPatch, h, resolveIngredientIds, get_or_create_list]

/-- C10: for every recipe and every partial-update payload that includes a
user field, the request does not change the owning user of the recipe: the
field is silently ignored and the request succeeds with status 200 rather
than being applied or rejected. -/
theorem patch_ignores_user_field (db : DB) (caller rid : Nat)
    (p : RecipePatchPayload) (r : Recipe) (v : Nat)
    (_hv : p.user = some v)
    (hfind : findRecipe db caller rid = some r)
    (hnodup : (db.recipes.map (fun x => x.id)).Nodup) :
    ∃ r2 db2, recipe_patch_update db caller rid p = (200, some r2, db2)
      ∧ r2.user = r.user
      ∧ db2.recipes.map (fun x => x.user)
          = db.recipes.map (fun x => x.user) := by
  refine ⟨(applyPatch db caller r p).2, (applyPatch db caller r p).1,
    ?_, rfl, ?_⟩
  · simp [recipe_patch_update, hfind]
  · have hrec : (applyPatch db caller r p).1.recipes
        = db.recipes.map
            (fun x => if x.id == r.id then (applyPatch db caller r p).2
              else x) := rfl
    rw [hrec, List.map_map]
    apply List.map_congr_left
    intro x hx
    simp only [Function.comp_apply]
    by_cases hid : x.id = r.id
    · have hxr : x = r := List.inj_on_of_nodup_map hnodup hx
        (List.mem_of_find?_eq_some hfind) hid
      subst hxr
      have huser : ((applyPatch db caller x p).2).user = x.user := rfl
      simp [huser]
    · simp [hid]

/-- C4: for every recipe create whose payload supplies tag or ingredient
sub-objects by name, each name already existing among the rows of the
requesting user is resolved to the existing row and no duplicate row is
created, each name not yet existing creates exactly one new row owned by that
user, and so the total row count of the user for that relation grows by
exactly the number of previously unseen names. -/
theorem create_resolves_names_without_duplicates (db : DB) (caller : Nat)
    (p : RecipeCreatePayload) (htags : p.tags.Nodup)
    (hingredients : p.ingredients.Nodup) :
    (((recipe_create db caller p).2.tags.filter
        (fun e => e.user == caller)).length
      = (db.tags.filter (fun e => e.user == caller)).length
        + (p.tags.filter
            (fun n => !decide (n ∈ userNames db.tags caller))).length)
    ∧ (((recipe_create db caller p).2.ingredients.filter
        (fun e => e.user == caller)).length
      = (db.ingredients.filter (fun e => e.user == caller)).length
        + (p.ingredients.filter
            (fun n => !decide (n ∈ userNames db.ingredients caller))).length)
    ∧ (∃ created, (recipe_create db caller p).2.tags = db.tags ++ created
        ∧ ∀ e ∈ created, e.user = caller)
    ∧ (∃ created, (recipe_create db caller p).2.ingredients
        = db.ingredients ++ created ∧ ∀ e ∈ created, e.user = caller) := by
  have ht : (recipe_create db caller p).2.tags
      = (get_or_create_list db.tags db.nextTagId caller p.tags).1 := rfl
  have hi : (recipe_create db caller p).2.ingredients
      = (get_or_create_list db.ingredients db.nextIngredientId caller
          p.ingredients).1 := rfl
  rw [ht, hi]
  exact ⟨get_or_create_list_count db.tags db.nextTagId caller p.tags htags,
    get_or_create_list_count db.ingredients db.nextIngredientId caller
      p.ingredients hingredients,
    get_or_create_list_append_user db.tags db.nextTagId caller p.tags,
    get_or_create_list_append_user db.ingredients db.nextIngredientId caller
      p.ingredients⟩

/-- C5: for all distinct users a and b and every recipe, tag or ingredient
owned by b, a retrieve, update or delete attempt on that row under the
credentials of a answers status 404, never 403, and leaves the database
unchanged; in particular a cross-user delete leaves the row in existence. -/
theorem cross_user_access_is_not_found (db : DB) (a b : Nat)
    (r : Recipe) (t i : Entity) (p : RecipePatchPayload) (newName : String)
    (hab : a ≠ b)
    (hr : r ∈ db.recipes) (hru : r.user = b)
    (hrn : (db.recipes.map (fun x => x.id)).Nodup)
    (ht : t ∈ db.tags) (htu : t.user = b)
    (htn : (db.tags.map (fun x => x.id)).Nodup)
    (hi : i ∈ db.ingredients) (hiu : i.user = b)
    (hin : (db.ingredients.map (fun x => x.id)).Nodup) :
    recipe_detail db a r.id = (404, none)
    ∧ recipe_delete db a r.id = (404, db)
    ∧ recipe_patch_update db a r.id p = (404, none, db)
    ∧ entity_update db.tags a t.id newName = (404, db.tags)
    ∧ entity_delete db.tags a t.id = (404, db.tags)
    ∧ entity_update db.ingredients a i.id newName = (404, db.ingredients)
    ∧ entity_delete db.ingredients a i.id = (404, db.ingredients) := by
  have hruser : r.user ≠ a := by rw [hru]; exact fun h => hab h.symm
  have htuser : t.user ≠ a := by rw [htu]; exact fun h => hab h.symm
  have hiuser : i.user ≠ a := by rw [hiu]; exact fun h => hab h.symm
  have hnr : findRecipe db a r.id = none :=
    find_owned_eq_none (fun x : Recipe => x.id) (fun x => x.user) db.recipes
      r a hr hrn hruser
  have hnt : db.tags.find? (fun e => e.user == a && e.id == t.id) = none :=
    find_owned_eq_none (fun x : Entity => x.id) (fun x => x.user) db.tags
      t a ht htn htuser
  have hni : db.ingredients.find?
      (fun e => e.user == a && e.id == i.id) = none :=
    find_owned_eq_none (fun x : Entity => x.id) (fun x => x.user)
      db.ingredients i a hi hin hiuser
  refine ⟨?_, ?_, ?_, ?_, ?_, ?_, ?_⟩ <;>
    simp [recipe_detail, recipe_delete, recipe_patch_update, entity_update,
      entity_delete, hnr, hnt, hni]

/-- C7: for every non-empty email of the form local part, at sign, domain,
user creation stores the email with only the domain part lowercased; the
local part keeps its original case. -/
theorem create_user_lowercases_domain (db : UserDB) (l d : List Char)
    (pw : String) (hd : '@' ∉ d) :
    ∃ db2 u, create_user db (String.mk (l ++ '@' :: d)) pw
        = Except.ok (db2, u)
      ∧ u.email = String.mk (l ++ '@' :: d.map Char.toLower) := by
  have hne : String.mk (l ++ '@' :: d) ≠ "" := by
    intro h
    have hdata : l ++ '@' :: d = [] := congrArg String.data h
    simp at hdata
  have hnorm : normalize_email (String.mk (l ++ '@' :: d))
      = String.mk (l ++ '@' :: d.map Char.toLower) := by
    unfold normalize_email
    have hdata : (String.mk (l ++ '@' :: d)).data = l ++ '@' :: d := rfl
    rw [hdata, splitLastAt_append l d hd]
  refine ⟨⟨db.users ++ [⟨db.nextUserId,
        normalize_email (String.mk (l ++ '@' :: d)), pw⟩],
      db.nextUserId + 1⟩,
    ⟨db.nextUserId, normalize_email (String.mk (l ++ '@' :: d)), pw⟩,
    ?_, ?_⟩
  · simp [create_user, hne]
  · show normalize_email (String.mk (l ++ '@' :: d)) = _
    exact hnorm

/-- C8: user creation with an empty email string is a value error surfaced to
an API caller as a 400-class response, and no user record is created. -/
theorem empty_email_is_rejected (db : UserDB) (pw : String) :
    create_user db "" pw = Except.error "Users must have an email address"
    ∧ create_user_endpoint db "" pw = (400, db) :=
  ⟨rfl, rfl⟩

/-- C9: the handle loop of wait_for_db reports success exactly when some
invocation of the database check completes without raising one of the two
caught operational errors; when the check at index k is the first to succeed
the loop runs exactly k + 1 iterations with k one-second sleeps, and when
every check raises a caught error the loop never terminates. -/
theorem wait_for_db_loop (checks : Nat → CheckResult) (k : Nat)
    (hk : checks k = CheckResult.ok)
    (hbefore : ∀ j, j < k → checks j ≠ CheckResult.ok) :
    (∀ fuel, k < fuel → handle checks fuel = some ⟨k + 1, k⟩)
    ∧ (∀ checks2 : Nat → CheckResult,
        (∃ fuel out, handle checks2 fuel = some out)
          ↔ (∃ n, checks2 n = CheckResult.ok))
    ∧ (∀ checks2 : Nat → CheckResult,
        (∀ j, (checks2 j).isCaught = true) →
          ∀ fuel, handle checks2 fuel = none) := by
  have hdiv : ∀ checks2 : Nat → CheckResult,
      (∀ j, checks2 j ≠ CheckResult.ok) →
        ∀ fuel, handle checks2 fuel = none := by
    intro checks2 hall fuel
    exact handleFrom_diverges checks2 hall fuel 0
  refine ⟨?_, ?_, ?_⟩
  · intro fuel hfuel
    exact handleFrom_success checks k hk hbefore fuel 0 (Nat.zero_le k)
      (by omega)
  · intro checks2
    constructor
    · rintro ⟨fuel, out, hout⟩
      by_contra hnone
      push_neg at hnone
      rw [hdiv checks2 hnone fuel] at hout
      exact Option.noConfusion hout
    · rintro ⟨n, hn⟩
      have hex : ∃ m, checks2 m = CheckResult.ok := ⟨n, hn⟩
      have hk2 : checks2 (Nat.find hex) = CheckResult.ok := Nat.find_spec hex
      have hb2 : ∀ j, j < Nat.find hex → checks2 j ≠ CheckResult.ok :=
        fun j hj => Nat.find_min hex hj
      exact ⟨Nat.find hex + 1, ⟨Nat.find hex + 1, Nat.find hex⟩,
        handleFrom_success checks2 (Nat.find hex) hk2 hb2 (Nat.find hex + 1)
          0 (Nat.zero_le _) (by omega)⟩
  · intro checks2 hcaught fuel
    apply hdiv checks2 _ fuel
    intro j hj
    have hcj := hcaught j
    rw [hj] at hcj
    simp [CheckResult.isCaught] at hcj

theorem patch_replaces_associations_witness :
    ∃ r2 db2,
      recipe_patch_update exDB 1 5 { tags := some [] } = (200, some r2, db2)
      ∧ r2 ∈ db2.recipes
      ∧ (({ tags := some [] } : RecipePatchPayload).tags = none →
          r2.tags = exRecipe.tags)
      ∧ (∀ names, ({ tags := some [] } : RecipePatchPayload).tags
            = some names → r2.tags = resolveTagIds exDB 1 names)
      ∧ (({ tags := some [] } : RecipePatchPayload).tags = some [] →
          r2.tags = [])
      ∧ (({ tags := some [] } : RecipePatchPayload).ingredients = none →
          r2.ingredients = exRecipe.ingredients)
      ∧ (∀ names, ({ tags := some [] } : RecipePatchPayload).ingredients
            = some names → r2.ingredients = resolveIngredientIds exDB 1 names)
      ∧ (({ tags := some [] } : RecipePatchPayload).ingredients = some [] →
          r2.ingredients = []) :=
  patch_replaces_associations exDB 1 5 { tags := some [] } exRecipe
    (by decide)

theorem patch_ignores_user_field_witness :
    ∃ r2 db2, recipe_patch_update exDB 1 5 { user := some 9 }
        = (200, some r2, db2)
      ∧ r2.user = exRecipe.user
      ∧ db2.recipes.map (fun x => x.user)
          = exDB.recipes.map (fun x => x.user) :=
  patch_ignores_user_field exDB 1 5 { user := some 9 } exRecipe 9 (by decide)
    (by decide) (by decide)

theorem create_resolves_names_without_duplicates_witness :
    (((recipe_create exDB 1 ⟨"F", 5, 101, "", "", ["a", "c"], ["b"]⟩).2.tags.filter
        (fun e => e.user == 1)).length
      = (exDB.tags.filter (fun e => e.user == 1)).length
        + ((["a", "c"] : List String).filter
            (fun n => !decide (n ∈ userNames exDB.tags 1))).length)
    ∧ (((recipe_create exDB 1
          ⟨"F", 5, 101, "", "", ["a", "c"], ["b"]⟩).2.ingredients.filter
        (fun e => e.user == 1)).length
      = (exDB.ingredients.filter (fun e => e.user == 1)).length
        + ((["b"] : List String).filter
            (fun n => !decide (n ∈ userNames exDB.ingredients 1))).length)
    ∧ (∃ created,
        (recipe_create exDB 1 ⟨"F", 5, 101, "", "", ["a", "c"], ["b"]⟩).2.tags
          = exDB.tags ++ created ∧ ∀ e ∈ created, e.user = 1)
    ∧ (∃ created,
        (recipe_create exDB 1
          ⟨"F", 5, 101, "", "", ["a", "c"], ["b"]⟩).2.ingredients
          = exDB.ingredients ++ created ∧ ∀ e ∈ created, e.user = 1) :=
  create_resolves_names_without_duplicates exDB 1
    ⟨"F", 5, 101, "", "", ["a", "c"], ["b"]⟩ (by decide) (by decide)

theorem cross_user_access_is_not_found_witness :
    recipe_detail exDBB 1 exRecipeB.id = (404, none)
    ∧ recipe_delete exDBB 1 exRecipeB.id = (404, exDBB)
    ∧ recipe_patch_update exDBB 1 exRecipeB.id {} = (404, none, exDBB)
    ∧ entity_update exDBB.tags 1 exTagB.id "x" = (404, exDBB.tags)
    ∧ entity_delete exDBB.tags 1 exTagB.id = (404, exDBB.tags)
    ∧ entity_update exDBB.ingredients 1 exIngredientB.id "x"
        = (404, exDBB.ingredients)
    ∧ entity_delete exDBB.ingredients 1 exIngredientB.id
        = (404, exDBB.ingredients) :=
  cross_user_access_is_not_found exDBB 1 2 exRecipeB exTagB exIngredientB {}
    "x" (by decide) (by decide) (by decide) (by decide) (by decide)
    (by decide) (by decide) (by decide) (by decide) (by decide)

theorem create_user_lowercases_domain_witness :
    ∃ db2 u, create_user exUserDB (String.mk (['A'] ++ '@' :: ['B'])) "p"
        = Except.ok (db2, u)
      ∧ u.email = String.mk (['A'] ++ '@' :: (['B'].map Char.toLower)) :=
  create_user_lowercases_domain exUserDB ['A'] ['B'] "p" (by decide)

theorem wait_for_db_loop_witness :
    (∀ fuel, 1 < fuel → handle exChecks fuel = some ⟨2, 1⟩)
    ∧ (∀ checks2 : Nat → CheckResult,
        (∃ fuel out, handle checks2 fuel = some out)
          ↔ (∃ n, checks2 n = CheckResult.ok))
    ∧ (∀ checks2 : Nat → CheckResult,
        (∀ j, (checks2 j).isCaught = true) →
          ∀ fuel, handle checks2 fuel = none) :=
  wait_for_db_loop exChecks 1 (by decide)
    (by
      intro j hj
      have hj0 : j = 0 := by omega
      subst hj0
      decide)
